import Mathlib

/-!
Verification development for the `cmsis_dsp` bounds-checked DSP wrapper crate
(src/filter.rs, src/statistics.rs, src/complex.rs).

Modelling conventions:

* Buffers are `List ℚ`; an f32 value is modelled as the exact rational it
  denotes.  The model covers the finite (non-NaN, non-infinite) range of
  IEEE-754 binary32; `isRepF32` decides membership, and the arithmetic
  (`fadd`, `fmul`) returns the exact result when it is representable and
  otherwise rounds to nearest, ties to even, exactly as IEEE binary32 does
  for in-range results.  Overflow to infinity is outside the modelled range
  (no claim exercises it).
* Machine-integer arithmetic (`usize`/`u8`/`u32`) is overflow-checked
  (Rust debug semantics): an overflowing/underflowing operation is a panic,
  modelled as the error `RtError.arithPanic`.
* Rust panics are modelled as `Except.error`: `check_length` failures carry
  the spec's `LengthMismatch`/`Overflow` conditions, the `assert!` in the
  filter `process` functions carries the spec's `OutOfRange` condition,
  out-of-bounds slice indexing is `RtError.indexPanic`.
* Calls into the external `cmsis_dsp_sys` backend are modelled by the
  `KernelCall` type: a function's successful result records exactly the
  backend call it issues; an error result means no backend call was issued
  (the checks run before the `unsafe` block in every source function).
-/

/-- Failure conditions of the crate's contract layer (spec §7 error taxonomy,
plus the two panic classes of the checked machine-integer model). -/
inductive RtError
  | lengthMismatch2 (a b : Nat)
  | lengthMismatch3 (a b c : Nat)
  | overflow
  | outOfRange
  | arithPanic
  | indexPanic
deriving DecidableEq

/-- Modelled from the spec: `check_length` (the LengthValidator) on a pair of
lengths.  The crate-root module defining `check_length` is not present under
`src/`; per spec §4.1 it verifies all tuple elements are pairwise equal,
returns the common length narrowed to the backend's 32-bit width, fails with
`LengthMismatch` (reporting the full tuple) when any two differ, and fails
with `Overflow` when the agreed length exceeds `2^32 - 1`. -/
def check_length2 (t : Nat × Nat) : Except RtError Nat :=
  if t.1 = t.2 then
    if t.1 < 2 ^ 32 then Except.ok t.1 else Except.error RtError.overflow
  else
    Except.error (RtError.lengthMismatch2 t.1 t.2)

/-- Modelled from the spec: `check_length` (the LengthValidator) on a triple
of lengths; same contract as `check_length2` at arity 3. -/
def check_length3 (t : Nat × Nat × Nat) : Except RtError Nat :=
  if t.1 = t.2.1 ∧ t.2.1 = t.2.2 then
    if t.1 < 2 ^ 32 then Except.ok t.1 else Except.error RtError.overflow
  else
    Except.error (RtError.lengthMismatch3 t.1 t.2.1 t.2.2)

/-- Checked `usize` subtraction: Rust `x - y`, a panic on underflow. -/
def csubE (x y : Nat) : Except RtError Nat :=
  if y ≤ x then Except.ok (x - y) else Except.error RtError.arithPanic

/-- Checked `u8` multiplication: Rust `x * y` at type `u8`. -/
def cmul8 (x y : Nat) : Except RtError Nat :=
  if x * y < 2 ^ 8 then Except.ok (x * y) else Except.error RtError.arithPanic

/-- Checked `u32` addition: Rust `x + y` at type `u32`. -/
def cadd32 (x y : Nat) : Except RtError Nat :=
  if x + y < 2 ^ 32 then Except.ok (x + y) else Except.error RtError.arithPanic

/-! ### Exact model of IEEE-754 binary32 values and arithmetic -/

/-- Number of binary digits of `n`, computed with explicit fuel so that the
definition is structurally recursive (kernel-reducible).  The fuel `300`
covers every numeral this development evaluates. -/
def bitlenAux : Nat → Nat → Nat
  | 0, _ => 0
  | f + 1, n => if n = 0 then 0 else bitlenAux f (n / 2) + 1

/-- Number of binary digits of `n` (`bitlen 0 = 0`, `bitlen 1 = 1`, ...). -/
def bitlen (n : Nat) : Nat := bitlenAux 300 n

/-- Largest odd divisor of `n` (0 for 0), with structural fuel. -/
def oddPartAux : Nat → Nat → Nat
  | 0, _ => 0
  | f + 1, n => if n = 0 then 0 else if n % 2 = 1 then n else oddPartAux f (n / 2)

/-- Largest odd divisor of `n` (0 for 0). -/
def oddPart (n : Nat) : Nat := oddPartAux 300 n

/-- Does the rational `q` denote a finite IEEE-754 binary32 value?  The finite
binary32 values are exactly the rationals `m * 2^e` with `|m| < 2^24`,
`e ≥ -149` and `|q| < 2^128`.  In lowest terms `n/d`: either `d = 2^s` with
`1 ≤ s ≤ 149` and the (odd) numerator satisfies `|n| < 2^24`, or `d = 1` and
the odd part of `|n|` is below `2^24` with `|n| < 2^128`. -/
def isRepF32 (q : ℚ) : Bool :=
  if q = 0 then true
  else
    let n := q.num.natAbs
    let d := q.den
    if d = 1 then
      decide (n < 2 ^ 128) && decide (oddPart n < 2 ^ 24)
    else
      decide (oddPart d = 1) && decide (bitlen d ≤ 150) && decide (n < 2 ^ 24)

/-- Round a rational to the nearest integer, ties to even. -/
def rne (q : ℚ) : ℤ :=
  let f : ℤ := Int.fdiv q.num q.den
  let r : ℚ := q - (f : ℚ)
  if r < 1 / 2 then f
  else if 1 / 2 < r then f + 1
  else if f % 2 = 0 then f else f + 1

/-- Floor of the base-2 logarithm of a positive rational. -/
def ilog2 (q : ℚ) : ℤ :=
  let c : ℤ := (bitlen q.num.natAbs : ℤ) - (bitlen q.den : ℤ)
  if (2 : ℚ) ^ c ≤ q then c else c - 1

/-- Round a rational to the binary32 grid, round-to-nearest ties-to-even
(no overflow handling: claims stay inside the finite range). -/
def roundF32 (q : ℚ) : ℚ :=
  if q = 0 then 0
  else
    let s : ℚ := if q < 0 then -1 else 1
    let x : ℚ := if q < 0 then -q else q
    let e : ℤ := max (ilog2 x) (-126)
    let g : ℚ := (2 : ℚ) ^ (e - 23)
    s * (rne (x / g) : ℚ) * g

/-- IEEE binary32 addition on the modelled values: exact when the exact sum
is representable, otherwise rounded to nearest, ties to even. -/
def fadd (x y : ℚ) : ℚ :=
  if isRepF32 (x + y) then x + y else roundF32 (x + y)

/-- IEEE binary32 multiplication on the modelled values: exact when the exact
product is representable, otherwise rounded to nearest, ties to even. -/
def fmul (x y : ℚ) : ℚ :=
  if isRepF32 (x * y) then x * y else roundF32 (x * y)

/-! ### Convolution (src/filter.rs, `conv_f32`)

The source loop is

```rust
for n in 0..dst.len() {
    dst[n] = 0.0;
    let kmin = if n >= src_b.len() - 1 { n - (src_b.len() - 1) } else { 0 };
    let kmax = if n < src_a.len() - 1 { n } else { src_a.len() - 1 };
    for k in kmin..=kmax {
        dst[n] += src_a[k] * src_b[n - k];
    }
}
```

preceded by `check_length((dst.len(), src_a.len() + src_b.len() - 1))`.
The inner loop is modelled with an explicit accumulator starting from the
`0.0` just stored into `dst[n]` (only this loop touches `dst[n]`); slice
indexing is checked (`indexPanic`), `usize` subtraction is checked
(`arithPanic`).  The guarded subtraction `n - (src_b.len() - 1)` in the
`kmin` branch cannot underflow, so it is plain `Nat` subtraction, exactly
like the guarded branch in the source. -/

/-- Inner accumulation loop of `conv_f32`: `for k in kmin..=kmax
{ dst[n] += src_a[k] * src_b[n - k]; }` over the listed `k`s. -/
def innerConv (a b : List ℚ) (n : Nat) : List Nat → ℚ → Except RtError ℚ
  | [], acc => Except.ok acc
  | k :: ks, acc =>
    match a[k]? with
    | none => Except.error RtError.indexPanic
    | some x =>
      match csubE n k with
      | Except.error e => Except.error e
      | Except.ok nk =>
        match b[nk]? with
        | none => Except.error RtError.indexPanic
        | some y => innerConv a b n ks (fadd acc (fmul x y))

/-- Outer loop of `conv_f32`: iterates `n` upward while `r` counts the
remaining iterations; `dst` is the destination buffer being written. -/
def convLoop (a b : List ℚ) : Nat → Nat → List ℚ → Except RtError (List ℚ)
  | _, 0, dst => Except.ok dst
  | n, r + 1, dst =>
    let dst0 := dst.set n 0
    match csubE b.length 1 with
    | Except.error e => Except.error e
    | Except.ok bm1 =>
      let kmin := if bm1 ≤ n then n - bm1 else 0
      match csubE a.length 1 with
      | Except.error e => Except.error e
      | Except.ok am1 =>
        let kmax := if n < am1 then n else am1
        match innerConv a b n (List.range' kmin (kmax + 1 - kmin)) 0 with
        | Except.error e => Except.error e
        | Except.ok v => convLoop a b (n + 1) r (dst0.set n v)

/-- `conv_f32(src_a, src_b, dst)` from src/filter.rs: validates
`dst.len() == src_a.len() + src_b.len() - 1` (the sum/difference computed in
checked `usize` arithmetic) through the LengthValidator, then runs the
convolution loop.  The result is the final contents of `dst`, or the panic
condition reached. -/
def conv_f32 (a b dst : List ℚ) : Except RtError (List ℚ) :=
  match csubE (a.length + b.length) 1 with
  | Except.error e => Except.error e
  | Except.ok l =>
    match check_length2 (dst.length, l) with
    | Except.error e => Except.error e
    | Except.ok _ => convLoop a b 0 dst.length dst

/-- One product term `src_a[k] * src_b[n - k]` of the convolution sum, in
the modelled f32 multiplication. -/
def convTerm (a b : List ℚ) (n k : Nat) : ℚ := fmul (a.getD k 0) (b.getD (n - k) 0)

/-- The clamp window `[kmin, kmax]` of output index `n` as the list
`[kmin, kmin+1, ..., kmax]` (`kmin = max 0 (n - (b-1))`, which in `Nat`
arithmetic is `n + 1 - b`, and `kmax = min n (a-1)`). -/
def convWindow (a b : List ℚ) (n : Nat) : List Nat :=
  List.range' (n + 1 - b.length) (min n (a.length - 1) + 1 - (n + 1 - b.length))

/-- The value `conv_f32` stores at output index `n`: the window terms
accumulated in index-ascending order with f32 addition, starting from 0. -/
def convCell (a b : List ℚ) (n : Nat) : ℚ :=
  (convWindow a b n).foldl (fun acc k => fadd acc (convTerm a b n k)) 0

/-- The full expected destination of `conv_f32` for output length `len`. -/
def convExpected (a b : List ℚ) (len : Nat) : List ℚ :=
  (List.range len).map (convCell a b)

/-- Modelled from the spec: the exact-arithmetic reference convolution of
§4.2 — `dst[n] = Σ A[k] * B[n-k]` over the clamp window, with exact rational
(infinite-precision) addition and multiplication instead of rounded f32
arithmetic.  Used to state what survives of claim C7's commutativity. -/
def convRefCell (a b : List ℚ) (n : Nat) : ℚ :=
  ((convWindow a b n).map (fun k => a.getD k 0 * b.getD (n - k) 0)).sum

/-- Modelled from the spec: full exact-arithmetic reference convolution. -/
def convRef (a b : List ℚ) : List ℚ :=
  (List.range (a.length + b.length - 1)).map (convRefCell a b)

/-! ### Backend calls, statistics and filters -/

/-- A call into the external `cmsis_dsp_sys` backend, recording the kernel
entered and the validated length/size arguments handed to it. -/
inductive KernelCall
  | absF32 (len : Nat)
  | rmsF32 (len : Nat)
  | biquadInitF32 (numStages : Nat)
  | biquadF32 (blockSize : Nat)
  | firInitF32 (numTaps blockSize : Nat)
  | firF32 (blockSize : Nat)
  | firDecimateInitF32 (numTaps m blockSize : Nat)
  | firDecimateF32 (blockSize : Nat)
deriving DecidableEq

/-- The `Result<T>` value a crate function returns when it returns at all
(panics are the outer `Except` layer). -/
inductive RustResult (α : Type)
  | ok (a : α) : RustResult α
  | err (e : RtError) : RustResult α
deriving DecidableEq

/-- `rms_f32(src, size, dst)` from src/statistics.rs: validates
`(src.len(), size)`, then issues its single backend call.  The source's
`unsafe` block invokes `cmsis_dsp_sys::arm_abs_f32(src.as_ptr(), dst,
length)` — the vector absolute-value kernel — which is what the model
records. -/
def rms_f32 (srcLen size : Nat) : Except RtError KernelCall :=
  match check_length2 (srcLen, size) with
  | Except.error e => Except.error e
  | Except.ok length => Except.ok (KernelCall.absF32 length)

/-- `BiquadCascadeDF2TFilter::new(num_stages, coeffs, state)` from
src/filter.rs.  `num_stages: u8`; the required counts `5 * num_stages` and
`2 * num_stages` are computed in checked `u8` arithmetic.  On success the
value records the single backend setup call and the returned
`Result` (always `Ok`). -/
def biquadNew (numStages coeffsLen stateLen : Nat) :
    Except RtError (KernelCall × RustResult Unit) :=
  match cmul8 5 numStages with
  | Except.error e => Except.error e
  | Except.ok c5 =>
    match check_length2 (coeffsLen, c5) with
    | Except.error e => Except.error e
    | Except.ok _ =>
      match cmul8 2 numStages with
      | Except.error e => Except.error e
      | Except.ok s2 =>
        match check_length2 (stateLen, s2) with
        | Except.error e => Except.error e
        | Except.ok _ =>
          Except.ok (KernelCall.biquadInitF32 numStages, RustResult.ok ())

/-- The state-size expression `(num_taps as u32) + block_size - 1` of the two
FIR constructors, in checked `u32` arithmetic. -/
def firStateReq (numTaps blockSize : Nat) : Except RtError Nat :=
  match cadd32 numTaps blockSize with
  | Except.error e => Except.error e
  | Except.ok s => if 1 ≤ s then Except.ok (s - 1) else Except.error RtError.arithPanic

/-- `FirFilter::new(num_taps, coeffs, state, block_size)` from src/filter.rs:
checks `(num_taps, coeffs.len())`, then `(num_taps + block_size - 1,
state.len())`, then issues the backend init call and returns `Ok`. -/
def firNew (numTaps coeffsLen stateLen blockSize : Nat) :
    Except RtError (KernelCall × RustResult Unit) :=
  match check_length2 (numTaps, coeffsLen) with
  | Except.error e => Except.error e
  | Except.ok _ =>
    match firStateReq numTaps blockSize with
    | Except.error e => Except.error e
    | Except.ok req =>
      match check_length2 (req, stateLen) with
      | Except.error e => Except.error e
      | Except.ok _ =>
        Except.ok (KernelCall.firInitF32 numTaps blockSize, RustResult.ok ())

/-- `FirFilterDecimate::new(num_taps, m, coeffs, state, block_size)` from
src/filter.rs: identical checks to `FirFilter::new`, then the decimating
init call. -/
def firDecimateNew (numTaps m coeffsLen stateLen blockSize : Nat) :
    Except RtError (KernelCall × RustResult Unit) :=
  match check_length2 (numTaps, coeffsLen) with
  | Except.error e => Except.error e
  | Except.ok _ =>
    match firStateReq numTaps blockSize with
    | Except.error e => Except.error e
    | Except.ok req =>
      match check_length2 (req, stateLen) with
      | Except.error e => Except.error e
      | Except.ok _ =>
        Except.ok (KernelCall.firDecimateInitF32 numTaps m blockSize, RustResult.ok ())

/-- `BiquadCascadeDF2TFilter::process(src, dst, block_size)` from
src/filter.rs: `check_length((src.len(), dst.len()))`, then
`assert!(block_size <= src.len() && block_size <= dst.len())` (the spec's
`OutOfRange` condition), then the backend block-processing call. -/
def biquadProcess (srcLen dstLen blockSize : Nat) : Except RtError KernelCall :=
  match check_length2 (srcLen, dstLen) with
  | Except.error e => Except.error e
  | Except.ok _ =>
    if blockSize ≤ srcLen ∧ blockSize ≤ dstLen then
      Except.ok (KernelCall.biquadF32 blockSize)
    else Except.error RtError.outOfRange

/-- `FirFilter::process(src, dst, block_size)` from src/filter.rs: same
checks as `biquadProcess`, then the FIR block-processing call. -/
def firProcess (srcLen dstLen blockSize : Nat) : Except RtError KernelCall :=
  match check_length2 (srcLen, dstLen) with
  | Except.error e => Except.error e
  | Except.ok _ =>
    if blockSize ≤ srcLen ∧ blockSize ≤ dstLen then
      Except.ok (KernelCall.firF32 blockSize)
    else Except.error RtError.outOfRange

/-- `FirFilterDecimate::process(src, dst, block_size)` from src/filter.rs:
same checks, then the decimating FIR block-processing call. -/
def firDecimateProcess (srcLen dstLen blockSize : Nat) : Except RtError KernelCall :=
  match check_length2 (srcLen, dstLen) with
  | Except.error e => Except.error e
  | Except.ok _ =>
    if blockSize ≤ srcLen ∧ blockSize ≤ dstLen then
      Except.ok (KernelCall.firDecimateF32 blockSize)
    else Except.error RtError.outOfRange

/-! ### Loop lemmas for `conv_f32` -/

theorem take_set_eq {α : Type} (v : α) (l : List α) (n : Nat) :
    (l.set n v).take n = l.take n := by
  apply List.ext_getElem? fun i => ?_
  rw [List.getElem?_take, List.getElem?_take]
  split
  · next h => rw [List.getElem?_set_ne (by omega)]
  · rfl

theorem take_set_succ {α : Type} (v : α) (l : List α) (n : Nat) (h : n < l.length) :
    (l.set n v).take (n + 1) = l.take n ++ [v] := by
  rw [List.take_succ, take_set_eq, List.getElem?_set_self h]
  rfl

theorem innerConv_ok (a b : List ℚ) (n : Nat) (ks : List Nat) :
    ∀ acc : ℚ, (∀ k ∈ ks, k < a.length ∧ k ≤ n ∧ n - k < b.length) →
      innerConv a b n ks acc
        = Except.ok (ks.foldl (fun acc k => fadd acc (convTerm a b n k)) acc) := by
  induction ks with
  | nil => intro acc _; rfl
  | cons k ks ih =>
    intro acc h
    obtain ⟨hka, hkn, hkb⟩ := h k (List.mem_cons_self k ks)
    have h1 : a[k]? = some (a.getD k 0) := by
      simp [List.getElem?_eq_getElem hka]
    have h2 : b[n - k]? = some (b.getD (n - k) 0) := by
      simp [List.getElem?_eq_getElem hkb]
    rw [innerConv, h1]
    simp only [csubE, if_pos hkn, h2, List.foldl_cons]
    rw [ih (fadd acc (fmul (a.getD k 0) (b.getD (n - k) 0)))
          (fun k hk => h k (List.mem_cons_of_mem _ hk))]
    rfl

theorem convWindow_mem (a b : List ℚ) (n : Nat) (ha : a ≠ []) (hb : b ≠ [])
    {k : Nat} (hk : k ∈ convWindow a b n) :
    k < a.length ∧ k ≤ n ∧ n - k < b.length := by
  have ha1 : 0 < a.length := List.length_pos.mpr ha
  have hb1 : 0 < b.length := List.length_pos.mpr hb
  rw [convWindow, List.mem_range'_1] at hk
  omega

theorem convLoop_ok (a b : List ℚ) (ha : a ≠ []) (hb : b ≠ []) :
    ∀ (r n : Nat) (dst : List ℚ), n + r = dst.length →
      convLoop a b n r dst
        = Except.ok (dst.take n ++ (List.range' n r).map (convCell a b)) := by
  intro r
  induction r with
  | zero =>
    intro n dst h
    have : dst.take n = dst := by
      rw [show n = dst.length by omega]
      exact List.take_length dst
    simp [convLoop, this]
  | succ r ih =>
    intro n dst h
    have hn : n < dst.length := by omega
    have ha1 : 0 < a.length := List.length_pos.mpr ha
    have hb1 : 0 < b.length := List.length_pos.mpr hb
    have e1 : csubE b.length 1 = Except.ok (b.length - 1) := by
      unfold csubE; rw [if_pos (show 1 ≤ b.length by omega)]
    have e2 : csubE a.length 1 = Except.ok (a.length - 1) := by
      unfold csubE; rw [if_pos (show 1 ≤ a.length by omega)]
    have hw : List.range' (if b.length - 1 ≤ n then n - (b.length - 1) else 0)
        ((if n < a.length - 1 then n else a.length - 1) + 1 -
          (if b.length - 1 ≤ n then n - (b.length - 1) else 0)) = convWindow a b n := by
      rw [convWindow]
      congr 1 <;> split_ifs <;> omega
    rw [convLoop, e1, e2]
    dsimp only
    simp only [hw]
    rw [innerConv_ok a b n (convWindow a b n) 0
        (fun k hk => convWindow_mem a b n ha hb hk)]
    dsimp only
    rw [List.set_set]
    have hc : List.foldl (fun acc k => fadd acc (convTerm a b n k)) 0 (convWindow a b n)
        = convCell a b n := rfl
    rw [hc]
    rw [ih (n + 1) (dst.set n (convCell a b n)) (by simp; omega)]
    rw [take_set_succ _ _ _ hn]
    rw [List.range'_succ]
    simp [convCell, List.append_assoc]

/-- Closed form of `conv_f32` on validated, nonempty inputs: the destination
is fully overwritten with the clamp-window sums of `convCell`. -/
theorem conv_f32_ok (a b dst : List ℚ) (ha : a ≠ []) (hb : b ≠ [])
    (hd : dst.length = a.length + b.length - 1) (hlt : dst.length < 2 ^ 32) :
    conv_f32 a b dst = Except.ok (convExpected a b dst.length) := by
  have ha1 : 0 < a.length := List.length_pos.mpr ha
  have e1 : csubE (a.length + b.length) 1 = Except.ok (a.length + b.length - 1) := by
    unfold csubE; rw [if_pos (show 1 ≤ a.length + b.length by omega)]
  have e2 : check_length2 (dst.length, a.length + b.length - 1)
      = Except.ok dst.length := by
    unfold check_length2
    dsimp only
    rw [if_pos hd, if_pos hlt]
  rw [conv_f32, e1]
  dsimp only
  rw [e2]
  dsimp only
  rw [convLoop_ok a b ha hb dst.length 0 dst (by omega)]
  simp [convExpected, List.range_eq_range']

theorem convLoop_indep (a b : List ℚ) :
    ∀ (r n : Nat) (d1 d2 : List ℚ), d1.length = d2.length → n + r = d1.length →
      d1.take n = d2.take n → convLoop a b n r d1 = convLoop a b n r d2 := by
  intro r
  induction r with
  | zero =>
    intro n d1 d2 hl h ht
    have h1 : d1.take n = d1 := by
      rw [show n = d1.length by omega]; exact List.take_length d1
    have h2 : d2.take n = d2 := by
      rw [show n = d2.length by omega]; exact List.take_length d2
    rw [convLoop, convLoop, ← h1, ← h2, ht]
  | succ r ih =>
    intro n d1 d2 hl h ht
    have hn : n < d1.length := by omega
    have hn2 : n < d2.length := by omega
    rw [convLoop, convLoop]
    dsimp only
    cases e1 : csubE b.length 1 with
    | error e => rfl
    | ok bm1 =>
      dsimp only
      cases e2 : csubE a.length 1 with
      | error e => rfl
      | ok am1 =>
        dsimp only
        cases e3 : innerConv a b n
            (List.range' (if bm1 ≤ n then n - bm1 else 0)
              ((if n < am1 then n else am1) + 1 - (if bm1 ≤ n then n - bm1 else 0))) 0 with
        | error e => rfl
        | ok v =>
          dsimp only
          rw [List.set_set, List.set_set]
          apply ih
          · simp [hl]
          · simp; omega
          · rw [take_set_succ _ _ _ hn, take_set_succ _ _ _ hn2, ht]

/-! ### Validator evaluation lemmas -/

theorem check2_ok {x y : Nat} (h : x = y) (h2 : x < 2 ^ 32) :
    check_length2 (x, y) = Except.ok x := by
  subst h; simp [check_length2]; omega

theorem check2_mismatch {x y : Nat} (h : x ≠ y) :
    check_length2 (x, y) = Except.error (RtError.lengthMismatch2 x y) := by
  simp [check_length2, h]

theorem check2_overflow {x y : Nat} (h : x = y) (h2 : 2 ^ 32 ≤ x) :
    check_length2 (x, y) = Except.error RtError.overflow := by
  subst h; simp [check_length2]; omega

/-! ### Claims C1, C3, C5, C9 -/

/-- C1: on a validated call (`src.len() = size`, within 32 bits), `rms_f32`
issues exactly one backend call — but that call is `arm_abs_f32`, the vector
absolute-value kernel, not the RMS kernel the function's own documentation
("Calculates the rms of a sequence of f32 values") and the spec require.
This theorem records the bug by evaluating the model at the failing input
`src.len() = size = 2`: the single issued call is `KernelCall.absF32 2`,
not `KernelCall.rmsF32 2`. -/
theorem claim_C1 :
    rms_f32 2 2 = Except.ok (KernelCall.absF32 2) ∧
    rms_f32 2 2 ≠ Except.ok (KernelCall.rmsF32 2) := by
  constructor
  · rfl
  · intro h
    simp [rms_f32, check_length2] at h

/-- C3: the length validator, modelled from the spec at both arities:
returns the common value when all elements agree and fit below `2^32`;
fails with `LengthMismatch` carrying the full tuple when any two differ;
fails with `Overflow` when all agree but the value does not fit.  Being a
total function into `Except`, it never both fails and returns a value. -/
theorem claim_C3 (a b c : Nat) :
    (a = b → a < 2 ^ 32 → check_length2 (a, b) = Except.ok a) ∧
    (a ≠ b → check_length2 (a, b) = Except.error (RtError.lengthMismatch2 a b)) ∧
    (a = b → 2 ^ 32 ≤ a → check_length2 (a, b) = Except.error RtError.overflow) ∧
    (a = b → b = c → a < 2 ^ 32 → check_length3 (a, b, c) = Except.ok a) ∧
    (¬(a = b ∧ b = c) →
      check_length3 (a, b, c) = Except.error (RtError.lengthMismatch3 a b c)) ∧
    (a = b → b = c → 2 ^ 32 ≤ a →
      check_length3 (a, b, c) = Except.error RtError.overflow) := by
  refine ⟨fun h1 h2 => check2_ok h1 h2, fun h1 => check2_mismatch h1, ?_, ?_, ?_, ?_⟩
  · intro h1 h2
    exact check2_overflow h1 h2
  · intro h1 h2 h3
    subst h1; subst h2
    simp [check_length3]; omega
  · intro h1
    simp [check_length3, h1]
  · intro h1 h2 h3
    subst h1; subst h2
    simp [check_length3]; omega

/-- Witness for C3 at concrete tuples. -/
theorem claim_C3_w :
    check_length2 (3, 3) = Except.ok 3 ∧
    check_length2 (3, 4) = Except.error (RtError.lengthMismatch2 3 4) ∧
    check_length2 (2 ^ 32, 2 ^ 32) = Except.error RtError.overflow ∧
    check_length3 (5, 5, 5) = Except.ok 5 ∧
    check_length3 (5, 5, 6) = Except.error (RtError.lengthMismatch3 5 5 6) ∧
    check_length3 (2 ^ 32, 2 ^ 32, 2 ^ 32) = Except.error RtError.overflow :=
  ⟨(claim_C3 3 3 0).1 rfl (by decide),
   (claim_C3 3 4 0).2.1 (by decide),
   (claim_C3 (2 ^ 32) (2 ^ 32) 0).2.2.1 rfl (by decide),
   (claim_C3 5 5 5).2.2.2.1 rfl rfl (by decide),
   (claim_C3 5 5 6).2.2.2.2.1 (by decide),
   (claim_C3 (2 ^ 32) (2 ^ 32) (2 ^ 32)).2.2.2.2.2 rfl rfl (by decide)⟩

/-- C5: for every `process` call on each of the three filter variants:
unequal buffer lengths fail with `LengthMismatch`; equal lengths with a
block size exceeding them fail with `OutOfRange` (the source's `assert!`),
a condition distinct from `LengthMismatch`; in both cases the result is an
error, so no backend processing call is recorded.  `bs < 2^32` is the type
bound of the `u32` parameter `block_size`. -/
theorem claim_C5 (s d bs : Nat) (hbs : bs < 2 ^ 32) :
    (s ≠ d →
      biquadProcess s d bs = Except.error (RtError.lengthMismatch2 s d) ∧
      firProcess s d bs = Except.error (RtError.lengthMismatch2 s d) ∧
      firDecimateProcess s d bs = Except.error (RtError.lengthMismatch2 s d)) ∧
    (s = d → s < bs →
      biquadProcess s d bs = Except.error RtError.outOfRange ∧
      firProcess s d bs = Except.error RtError.outOfRange ∧
      firDecimateProcess s d bs = Except.error RtError.outOfRange) := by
  constructor
  · intro h
    refine ⟨?_, ?_, ?_⟩ <;>
      · simp only [biquadProcess, firProcess, firDecimateProcess]
        rw [check2_mismatch h]
  · intro h1 h2
    subst h1
    have hc : check_length2 (s, s) = Except.ok s := check2_ok rfl (by omega)
    refine ⟨?_, ?_, ?_⟩ <;>
      · simp only [biquadProcess, firProcess, firDecimateProcess]
        rw [hc]
        dsimp only
        rw [if_neg (by omega)]

/-- Witness for C5 at concrete inputs. -/
theorem claim_C5_w :
    firProcess 3 4 1 = Except.error (RtError.lengthMismatch2 3 4) ∧
    biquadProcess 3 3 4 = Except.error RtError.outOfRange :=
  ⟨((claim_C5 3 4 1 (by decide)).1 (by decide)).2.1,
   ((claim_C5 3 3 4 (by decide)).2 rfl (by decide)).1⟩

/-- C9: the three filter constructors declare a `Result` return type, but
every failure is a panic inside the length checks (the outer `Except`
layer), so whenever a constructor returns at all, the returned `Result` is
`Ok`: the `Err` branch is unreachable. -/
theorem claim_C9 (ns cl sl taps bs m cl2 sl2 cl3 sl3 : Nat) :
    (∀ p, biquadNew ns cl sl = Except.ok p → p.2 = RustResult.ok ()) ∧
    (∀ p, firNew taps cl2 sl2 bs = Except.ok p → p.2 = RustResult.ok ()) ∧
    (∀ p, firDecimateNew taps m cl3 sl3 bs = Except.ok p → p.2 = RustResult.ok ()) := by
  refine ⟨?_, ?_, ?_⟩ <;>
    · intro p h
      simp only [biquadNew, firNew, firDecimateNew] at h
      repeat' split at h
      all_goals try simp_all
      all_goals rw [← h]

/-- Witness for C9 at concrete successful constructions. -/
theorem claim_C9_w :
    ((KernelCall.biquadInitF32 1, RustResult.ok ()) : KernelCall × RustResult Unit).2
      = RustResult.ok () ∧
    ((KernelCall.firInitF32 4 2, RustResult.ok ()) : KernelCall × RustResult Unit).2
      = RustResult.ok () :=
  ⟨(claim_C9 1 5 2 4 2 3 4 5 4 5).1 (KernelCall.biquadInitF32 1, RustResult.ok ()) rfl,
   (claim_C9 1 5 2 4 2 3 4 5 4 5).2.1 (KernelCall.firInitF32 4 2, RustResult.ok ()) rfl⟩

/-! ### Claim C4 -/

theorem cmul8_ok {x y : Nat} (h : x * y < 2 ^ 8) : cmul8 x y = Except.ok (x * y) := by
  unfold cmul8; rw [if_pos h]

theorem firStateReq_ok {taps bs : Nat} (h1 : 1 ≤ taps + bs) (h2 : taps + bs < 2 ^ 32) :
    firStateReq taps bs = Except.ok (taps + bs - 1) := by
  unfold firStateReq cadd32
  rw [if_pos h2]
  dsimp only
  rw [if_pos h1]

theorem biquadNew_cases (ns cl sl : Nat) (h5 : 5 * ns < 2 ^ 8) :
    ((∃ p, biquadNew ns cl sl = Except.ok p) ↔ (cl = 5 * ns ∧ sl = 2 * ns)) ∧
    (¬(cl = 5 * ns ∧ sl = 2 * ns) →
      ∃ x y, biquadNew ns cl sl = Except.error (RtError.lengthMismatch2 x y)) := by
  have hc5 : cmul8 5 ns = Except.ok (5 * ns) := cmul8_ok h5
  have hc2 : cmul8 2 ns = Except.ok (2 * ns) := cmul8_ok (by omega)
  by_cases h1 : cl = 5 * ns
  · by_cases h2 : sl = 2 * ns
    · have he : biquadNew ns cl sl
          = Except.ok (KernelCall.biquadInitF32 ns, RustResult.ok ()) := by
        simp only [biquadNew]
        rw [hc5]; dsimp only
        rw [check2_ok h1 (by omega)]; dsimp only
        rw [hc2]; dsimp only
        rw [check2_ok h2 (by omega)]
      exact ⟨⟨fun _ => ⟨h1, h2⟩, fun _ => ⟨_, he⟩⟩, fun hne => absurd ⟨h1, h2⟩ hne⟩
    · have he : biquadNew ns cl sl
          = Except.error (RtError.lengthMismatch2 sl (2 * ns)) := by
        simp only [biquadNew]
        rw [hc5]; dsimp only
        rw [check2_ok h1 (by omega)]; dsimp only
        rw [hc2]; dsimp only
        rw [check2_mismatch h2]
      refine ⟨⟨?_, ?_⟩, fun _ => ⟨sl, 2 * ns, he⟩⟩
      · rintro ⟨p, hp⟩
        rw [he] at hp
        simp at hp
      · rintro ⟨_, h2'⟩
        exact absurd h2' h2
  · have he : biquadNew ns cl sl
        = Except.error (RtError.lengthMismatch2 cl (5 * ns)) := by
      simp only [biquadNew]
      rw [hc5]; dsimp only
      rw [check2_mismatch h1]
    refine ⟨⟨?_, ?_⟩, fun _ => ⟨cl, 5 * ns, he⟩⟩
    · rintro ⟨p, hp⟩
      rw [he] at hp
      simp at hp
    · rintro ⟨h1', _⟩
      exact absurd h1' h1

theorem firNew_cases (taps cl2 sl2 bs : Nat) (ht : taps < 2 ^ 16)
    (hbs1 : 1 ≤ taps + bs) (hbs2 : taps + bs < 2 ^ 32) :
    ((∃ p, firNew taps cl2 sl2 bs = Except.ok p) ↔ (cl2 = taps ∧ sl2 = taps + bs - 1)) ∧
    (¬(cl2 = taps ∧ sl2 = taps + bs - 1) →
      ∃ x y, firNew taps cl2 sl2 bs = Except.error (RtError.lengthMismatch2 x y)) := by
  have hfr : firStateReq taps bs = Except.ok (taps + bs - 1) := firStateReq_ok hbs1 hbs2
  by_cases h1 : cl2 = taps
  · by_cases h2 : sl2 = taps + bs - 1
    · have he : firNew taps cl2 sl2 bs
          = Except.ok (KernelCall.firInitF32 taps bs, RustResult.ok ()) := by
        simp only [firNew]
        rw [check2_ok h1.symm (by omega)]; dsimp only
        rw [hfr]; dsimp only
        rw [check2_ok h2.symm (by omega)]
      exact ⟨⟨fun _ => ⟨h1, h2⟩, fun _ => ⟨_, he⟩⟩, fun hne => absurd ⟨h1, h2⟩ hne⟩
    · have he : firNew taps cl2 sl2 bs
          = Except.error (RtError.lengthMismatch2 (taps + bs - 1) sl2) := by
        simp only [firNew]
        rw [check2_ok h1.symm (by omega)]; dsimp only
        rw [hfr]; dsimp only
        rw [check2_mismatch (fun hx => h2 hx.symm)]
      refine ⟨⟨?_, ?_⟩, fun _ => ⟨taps + bs - 1, sl2, he⟩⟩
      · rintro ⟨p, hp⟩
        rw [he] at hp
        simp at hp
      · rintro ⟨_, h2'⟩
        exact absurd h2' h2
  · have he : firNew taps cl2 sl2 bs
        = Except.error (RtError.lengthMismatch2 taps cl2) := by
      simp only [firNew]
      rw [check2_mismatch (fun hx => h1 hx.symm)]
    refine ⟨⟨?_, ?_⟩, fun _ => ⟨taps, cl2, he⟩⟩
    · rintro ⟨p, hp⟩
      rw [he] at hp
      simp at hp
    · rintro ⟨h1', _⟩
      exact absurd h1' h1

theorem firDecimateNew_cases (taps m cl3 sl3 bs : Nat) (ht : taps < 2 ^ 16)
    (hbs1 : 1 ≤ taps + bs) (hbs2 : taps + bs < 2 ^ 32) :
    ((∃ p, firDecimateNew taps m cl3 sl3 bs = Except.ok p)
        ↔ (cl3 = taps ∧ sl3 = taps + bs - 1)) ∧
    (¬(cl3 = taps ∧ sl3 = taps + bs - 1) →
      ∃ x y, firDecimateNew taps m cl3 sl3 bs
          = Except.error (RtError.lengthMismatch2 x y)) := by
  have hfr : firStateReq taps bs = Except.ok (taps + bs - 1) := firStateReq_ok hbs1 hbs2
  by_cases h1 : cl3 = taps
  · by_cases h2 : sl3 = taps + bs - 1
    · have he : firDecimateNew taps m cl3 sl3 bs
          = Except.ok (KernelCall.firDecimateInitF32 taps m bs, RustResult.ok ()) := by
        simp only [firDecimateNew]
        rw [check2_ok h1.symm (by omega)]; dsimp only
        rw [hfr]; dsimp only
        rw [check2_ok h2.symm (by omega)]
      exact ⟨⟨fun _ => ⟨h1, h2⟩, fun _ => ⟨_, he⟩⟩, fun hne => absurd ⟨h1, h2⟩ hne⟩
    · have he : firDecimateNew taps m cl3 sl3 bs
          = Except.error (RtError.lengthMismatch2 (taps + bs - 1) sl3) := by
        simp only [firDecimateNew]
        rw [check2_ok h1.symm (by omega)]; dsimp only
        rw [hfr]; dsimp only
        rw [check2_mismatch (fun hx => h2 hx.symm)]
      refine ⟨⟨?_, ?_⟩, fun _ => ⟨taps + bs - 1, sl3, he⟩⟩
      · rintro ⟨p, hp⟩
        rw [he] at hp
        simp at hp
      · rintro ⟨_, h2'⟩
        exact absurd h2' h2
  · have he : firDecimateNew taps m cl3 sl3 bs
        = Except.error (RtError.lengthMismatch2 taps cl3) := by
      simp only [firDecimateNew]
      rw [check2_mismatch (fun hx => h1 hx.symm)]
    refine ⟨⟨?_, ?_⟩, fun _ => ⟨taps, cl3, he⟩⟩
    · rintro ⟨p, hp⟩
      rw [he] at hp
      simp at hp
    · rintro ⟨h1', _⟩
      exact absurd h1' h1

/-- C4 (amended): for every filter constructor call whose required-count
arithmetic fits its machine width (`5 * num_stages ≤ 255` for the biquad's
`u8` products; `1 ≤ num_taps + block_size` and `num_taps + block_size ≤ 2^32
- 1` for the FIR variants' `u32` state-size expression; `num_taps < 2^16`
is the `u16` type bound): construction succeeds exactly when the coefficient
and state lengths equal the variant's required counts, and otherwise fails
with a `LengthMismatch` — an error result, so no instance is produced and
no backend setup call is recorded.  Outside those width bounds the original
claim fails: the width arithmetic itself panics (see the counterexample). -/
theorem claim_C4 (ns cl sl taps bs m cl2 sl2 cl3 sl3 : Nat)
    (h5 : 5 * ns < 2 ^ 8) (ht : taps < 2 ^ 16) (hbs1 : 1 ≤ taps + bs)
    (hbs2 : taps + bs < 2 ^ 32) :
    ((∃ p, biquadNew ns cl sl = Except.ok p) ↔ (cl = 5 * ns ∧ sl = 2 * ns)) ∧
    (¬(cl = 5 * ns ∧ sl = 2 * ns) →
      ∃ x y, biquadNew ns cl sl = Except.error (RtError.lengthMismatch2 x y)) ∧
    ((∃ p, firNew taps cl2 sl2 bs = Except.ok p) ↔ (cl2 = taps ∧ sl2 = taps + bs - 1)) ∧
    (¬(cl2 = taps ∧ sl2 = taps + bs - 1) →
      ∃ x y, firNew taps cl2 sl2 bs = Except.error (RtError.lengthMismatch2 x y)) ∧
    ((∃ p, firDecimateNew taps m cl3 sl3 bs = Except.ok p)
        ↔ (cl3 = taps ∧ sl3 = taps + bs - 1)) ∧
    (¬(cl3 = taps ∧ sl3 = taps + bs - 1) →
      ∃ x y, firDecimateNew taps m cl3 sl3 bs
          = Except.error (RtError.lengthMismatch2 x y)) :=
  ⟨(biquadNew_cases ns cl sl h5).1, (biquadNew_cases ns cl sl h5).2,
   (firNew_cases taps cl2 sl2 bs ht hbs1 hbs2).1,
   (firNew_cases taps cl2 sl2 bs ht hbs1 hbs2).2,
   (firDecimateNew_cases taps m cl3 sl3 bs ht hbs1 hbs2).1,
   (firDecimateNew_cases taps m cl3 sl3 bs ht hbs1 hbs2).2⟩

/-- C4 counterexample: with `num_stages = 52`, the source's `5 *
num_stages` is computed at type `u8` and overflows (260 > 255), so the
constructor fails with an arithmetic-overflow panic — not the
`LengthMismatch` the claim promises for a failing length check (in release
builds the product instead wraps to 4, letting construction succeed with
`coeffs.len() = 4 ≠ 5 * 52`).  Either way the claim as stated is false. -/
theorem claim_C4_cex : biquadNew 52 4 104 = Except.error RtError.arithPanic := rfl

/-- Witness for C4: a valid biquad construction succeeds, and a FIR
construction with a wrong coefficient count fails with `LengthMismatch`. -/
theorem claim_C4_w :
    (∃ p, biquadNew 1 5 2 = Except.ok p) ∧
    (∃ x y, firNew 4 3 5 2 = Except.error (RtError.lengthMismatch2 x y)) :=
  ⟨(claim_C4 1 5 2 4 2 0 5 5 4 5 (by decide) (by decide) (by decide) (by decide)).1.mpr
      (by decide),
   (claim_C4 1 5 2 4 2 0 3 5 4 5 (by decide) (by decide) (by decide)
      (by decide)).2.2.2.1 (by decide)⟩

/-! ### Claims C2, C8, C10, C6 -/

/-- C2 (amended): for nonempty `src_a` and `src_b` with a destination of the
validated length `a + b - 1` that fits the 32-bit check, `conv_f32` sets
each `dst[n]` (for `n` in `[0, a+b-2]`) to the sum of `src_a[k] *
src_b[n-k]` for `k` from `kmin = max 0 (n-(b-1))` (written `n + 1 - b` in
`Nat` arithmetic) to `kmax = min n (a-1)`, accumulated in index-ascending
order of `k` with the modelled native f32 addition and multiplication and
no compensated summation.  The original claim also covers an empty source
sequence, where the code instead panics (see the counterexample). -/
theorem claim_C2 (a b dst : List ℚ) (ha : a ≠ []) (hb : b ≠ [])
    (hd : dst.length = a.length + b.length - 1) (hlt : dst.length < 2 ^ 32) :
    conv_f32 a b dst = Except.ok ((List.range dst.length).map (fun n =>
      (List.range' (n + 1 - b.length)
          (min n (a.length - 1) + 1 - (n + 1 - b.length))).foldl
        (fun acc k => fadd acc (fmul (a.getD k 0) (b.getD (n - k) 0))) 0)) := by
  rw [conv_f32_ok a b dst ha hb hd hlt]
  rfl

/-- C2 counterexample: with `src_a = [0, 0]`, `src_b = []` and a destination
of the stated length `2 + 0 - 1 = 1`, the claim says `dst[0]` becomes the
empty-window sum `0`, but the code panics computing `src_b.len() - 1`
(checked `usize` underflow). -/
theorem claim_C2_cex :
    conv_f32 [0, 0] [] [0] = Except.error RtError.arithPanic := by
  with_unfolding_all rfl

/-- Witness for C2 at `src_a = [1]`, `src_b = [1]`, `dst = [5]`. -/
theorem claim_C2_w :
    conv_f32 [1] [1] [5] = Except.ok ((List.range ([5] : List ℚ).length).map (fun n =>
      (List.range' (n + 1 - ([1] : List ℚ).length)
          (min n (([1] : List ℚ).length - 1) + 1 - (n + 1 - ([1] : List ℚ).length))).foldl
        (fun acc k => fadd acc (fmul (([1] : List ℚ).getD k 0)
          (([1] : List ℚ).getD (n - k) 0))) 0)) :=
  claim_C2 [1] [1] [5] (by decide) (by decide) (by decide) (by decide)

/-- C8 (amended): when both source sequences are nonempty, the stated
precondition `dst.len() = a + b - 1` makes every index used inside the
accumulation loop in bounds on both sources and the destination, and no
index arithmetic underflows: the checked model never reaches an
`indexPanic` or `arithPanic`.  With an empty source the claim fails — the
unguarded `src_a.len() - 1` / `src_b.len() - 1` underflow (see the
counterexample). -/
theorem claim_C8 (a b dst : List ℚ) (ha : a ≠ []) (hb : b ≠ [])
    (hd : dst.length = a.length + b.length - 1) :
    conv_f32 a b dst ≠ Except.error RtError.indexPanic ∧
    conv_f32 a b dst ≠ Except.error RtError.arithPanic := by
  by_cases hlt : dst.length < 2 ^ 32
  · rw [conv_f32_ok a b dst ha hb hd hlt]
    exact ⟨by simp, by simp⟩
  · have ha1 : 0 < a.length := List.length_pos.mpr ha
    have e1 : csubE (a.length + b.length) 1 = Except.ok (a.length + b.length - 1) := by
      unfold csubE; rw [if_pos (show 1 ≤ a.length + b.length by omega)]
    have e2 : check_length2 (dst.length, a.length + b.length - 1)
        = Except.error RtError.overflow := check2_overflow hd (by omega)
    rw [conv_f32, e1]
    dsimp only
    rw [e2]
    exact ⟨by simp, by simp⟩

/-- C8 counterexample: `src_a = [3, 3, 3]`, `src_b = []`, destination of the
stated length `3 + 0 - 1 = 2`: the claim promises in-bounds indexing with no
arithmetic error branch, but the first outer iteration panics computing
`src_b.len() - 1`. -/
theorem claim_C8_cex :
    conv_f32 [3, 3, 3] [] [0, 0] = Except.error RtError.arithPanic := by
  with_unfolding_all rfl

/-- Witness for C8 at `src_a = [1]`, `src_b = [1]`, `dst = [0]`. -/
theorem claim_C8_w :
    conv_f32 [1] [1] [0] ≠ Except.error RtError.indexPanic ∧
    conv_f32 [1] [1] [0] ≠ Except.error RtError.arithPanic :=
  claim_C8 [1] [1] [0] (by decide) (by decide) (by decide)

/-- C10: the result of `conv_f32` does not depend on the prior contents of
the destination buffer: two destinations of the same valid length but
arbitrary contents yield identical results, because every cell is
overwritten (`dst[n] = 0.0` before accumulation) and the control flow
depends only on lengths. -/
theorem claim_C10 (a b d1 d2 : List ℚ) (h1 : d1.length = a.length + b.length - 1)
    (h2 : d2.length = d1.length) : conv_f32 a b d1 = conv_f32 a b d2 := by
  rw [conv_f32, conv_f32, h2]
  cases e : csubE (a.length + b.length) 1 with
  | error e' => rfl
  | ok l =>
    dsimp only
    cases e2 : check_length2 (d1.length, l) with
    | error e' => rfl
    | ok v =>
      dsimp only
      exact convLoop_indep a b d1.length 0 d1 d2 (by omega) (by omega) rfl

/-- Witness for C10 at `src_a = [1]`, `src_b = [1]` and two different
destination contents of length 1. -/
theorem claim_C10_w : conv_f32 [1] [1] [3] = conv_f32 [1] [1] [7] :=
  claim_C10 [1] [1] [3] [7] (by decide) (by decide)

/-- C6: convolving `A = [1]` with any f32 sequence `B` (every element a
representable binary32 value) into a destination of `B`'s length yields
exactly `B`; and the concrete example `A = [1,2,3]`, `B = [0,1,0.5]` with a
destination of length 5 yields exactly `[0.0, 1.0, 2.5, 4.0, 1.5]`.  The
`b.length < 2^32` bound is the validator's 32-bit narrowing condition. -/
theorem claim_C6 :
    (∀ (b dst : List ℚ), (∀ x ∈ b, isRepF32 x = true) → dst.length = b.length →
      b.length < 2 ^ 32 → conv_f32 [1] b dst = Except.ok b) ∧
    conv_f32 [1, 2, 3] [0, 1, 1 / 2] [9, 9, 9, 9, 9]
      = Except.ok [0, 1, 5 / 2, 4, 3 / 2] := by
  constructor
  · intro b dst hrep hd hlt
    by_cases hb : b = []
    · subst hb
      have hdn : dst = [] := List.length_eq_zero.mp (by simpa using hd)
      subst hdn
      rfl
    · have h1 : ([1] : List ℚ) ≠ [] := by simp
      have hd' : dst.length = ([1] : List ℚ).length + b.length - 1 := by
        simp only [List.length_singleton]
        omega
      rw [conv_f32_ok [1] b dst h1 hb hd' (by omega)]
      congr 1
      rw [hd]
      apply List.ext_getElem
      · simp [convExpected]
      · intro n hn1 hn2
        have hnb : n < b.length := hn2
        have hx' : isRepF32 b[n] = true := hrep b[n] (List.getElem_mem hnb)
        have hw : convWindow [1] b n = [0] := by
          unfold convWindow
          rw [show n + 1 - b.length = 0 by omega]
          simp
        simp only [convExpected, List.getElem_map, List.getElem_range]
        unfold convCell convTerm
        rw [hw]
        simp only [List.foldl_cons, List.foldl_nil]
        have hg : b.getD (n - 0) 0 = b[n] := by
          simp [List.getElem?_eq_getElem hnb]
        rw [hg]
        have hone : ([1] : List ℚ).getD 0 0 = 1 := rfl
        rw [hone]
        have hfm : fmul 1 b[n] = b[n] := by
          unfold fmul
          rw [one_mul, hx']
          simp
        have hfa : fadd 0 b[n] = b[n] := by
          unfold fadd
          rw [zero_add, hx']
          simp
        rw [hfm, hfa]
  · with_unfolding_all rfl

/-- Witness for C6's universally quantified part at `B = [1/2]`. -/
theorem claim_C6_w : conv_f32 [1] [1 / 2] [9] = Except.ok [1 / 2] :=
  claim_C6.1 [1 / 2] [9]
    (by
      intro x hx
      rw [List.mem_singleton] at hx
      subst hx
      with_unfolding_all rfl)
    (by decide) (by decide)

/-! ### Claim C7 -/

/-- Reversing an arithmetic index range: mapping `j ↦ f (n - j)` over
`range' t l` lists the same values as `range' s l` mapped through `f`, in
reverse order, whenever `s + t + l = n + 1`. -/
theorem map_sub_range' (f : Nat → ℚ) (n : Nat) :
    ∀ (l s t : Nat), s + t + l = n + 1 →
      (List.range' t l).map (fun j => f (n - j)) = ((List.range' s l).map f).reverse := by
  intro l
  induction l with
  | zero => intro s t h; rfl
  | succ l ih =>
    intro s t h
    rw [List.range'_succ, List.range'_1_concat]
    simp only [List.map_cons, List.map_append, List.map_nil, List.reverse_append,
      List.reverse_cons, List.reverse_nil, List.nil_append, List.singleton_append]
    rw [show n - t = s + l by omega]
    rw [ih (s) (t + 1) (by omega)]

/-- Each cell of the exact-arithmetic reference convolution is symmetric in
the two sequences: the clamp windows have equal size, and the reversal
`k ↦ n - k` carries one window onto the other while `mul_comm` matches the
terms. -/
theorem convRefCell_comm (a b : List ℚ) (ha : a ≠ []) (hb : b ≠ []) (n : Nat)
    (hn : n < a.length + b.length - 1) :
    convRefCell a b n = convRefCell b a n := by
  have ha1 : 0 < a.length := List.length_pos.mpr ha
  have hb1 : 0 < b.length := List.length_pos.mpr hb
  unfold convRefCell convWindow
  rw [show min n (a.length - 1) + 1 - (n + 1 - b.length)
      = min n (b.length - 1) + 1 - (n + 1 - a.length) by omega]
  rw [show (List.range' (n + 1 - a.length)
        (min n (b.length - 1) + 1 - (n + 1 - a.length))).map
        (fun k => b.getD k 0 * a.getD (n - k) 0)
      = (List.range' (n + 1 - a.length)
        (min n (b.length - 1) + 1 - (n + 1 - a.length))).map
        (fun j => (fun k => a.getD k 0 * b.getD (n - k) 0) (n - j)) from
    List.map_congr_left (by
      intro j hj
      rw [List.mem_range'_1] at hj
      dsimp only
      rw [show n - (n - j) = j by omega, mul_comm])]
  rw [map_sub_range' (fun k => a.getD k 0 * b.getD (n - k) 0) n
      (min n (b.length - 1) + 1 - (n + 1 - a.length))
      (n + 1 - b.length) (n + 1 - a.length) (by omega)]
  rw [List.sum_reverse]

/-- C7 (amended): the two clamp windows list the same multiset of product
terms, so for the exact-arithmetic reference convolution (`convRef`, spec
§4.2 with infinite-precision `+`/`*`) convolution is commutative:
`convRef A B = convRef B A` for nonempty finite sequences.  Under the
modelled f32 arithmetic the claim as stated is false: the summation order
within a cell is reversed between the two calls, and f32 addition is not
associative, so the rounded results can differ bitwise (see the
counterexample). -/
theorem claim_C7 (a b : List ℚ) (ha : a ≠ []) (hb : b ≠ []) :
    convRef a b = convRef b a := by
  unfold convRef
  rw [show b.length + a.length - 1 = a.length + b.length - 1 by omega]
  apply List.map_congr_left
  intro n hn
  rw [List.mem_range] at hn
  exact convRefCell_comm a b ha hb n hn

/-- C7 counterexample: with `A = [2^24, 1, -2^24]`, `B = [1, 1, 1]` and
fresh length-5 destinations, `conv_f32 A B` and `conv_f32 B A` differ at
index 2: ascending accumulation gives `(2^24 ⊕ 1) ⊕ -2^24 = 2^24 ⊕ -2^24 =
0` (the `+1` is absorbed by round-to-nearest-even), while the reversed
order gives `(-2^24 ⊕ 1) ⊕ 2^24 = -(2^24 - 1) ⊕ 2^24 = 1` exactly. -/
theorem claim_C7_cex :
    conv_f32 [16777216, 1, -16777216] [1, 1, 1] [0, 0, 0, 0, 0]
      ≠ conv_f32 [1, 1, 1] [16777216, 1, -16777216] [0, 0, 0, 0, 0] := by
  have h1 : conv_f32 [16777216, 1, -16777216] [1, 1, 1] [0, 0, 0, 0, 0]
      = Except.ok [16777216, 16777216, 0, -16777215, -16777216] := by
    with_unfolding_all rfl
  have h2 : conv_f32 [1, 1, 1] [16777216, 1, -16777216] [0, 0, 0, 0, 0]
      = Except.ok [16777216, 16777216, 1, -16777215, -16777216] := by
    with_unfolding_all rfl
  rw [h1, h2]
  intro h
  norm_num at h

/-- Witness for C7's amended commutativity at `A = [1]`, `B = [2]`. -/
theorem claim_C7_w : convRef [1] [2] = convRef [2] [1] :=
  claim_C7 [1] [2] (by decide) (by decide)
